import Mathlib

/-!
Verification of the WISTestAutoKnowledge data-layer and search specification.

Strings are modelled as `List Char`; JavaScript `toLowerCase` is modelled
character-wise (`Char.toLower`), and JS truthiness of a possibly-absent
string field is modelled by `strFalsy` on `Option (List Char)`.

Sources embedded:
- `src/WIS Test Automation/src/components/ProjectStructure.tsx`
  (`getHighlightedSnippet`, the `GlobalSearch` search effect, `moveFolder`,
   the folder mutation handlers and the save effects);
- the Hono server (`src/unnamed/part_001`): the document, structure and
  community endpoint handlers over the key-value store.
-/

/-- Character-wise lower-casing, modelling JS `String.prototype.toLowerCase`. -/
def lc (s : List Char) : List Char := s.map Char.toLower

/-- JS `s.substring(a, b)` for `a ≤ b` (both clamped to the length). -/
def substring (s : List Char) (a b : Nat) : List Char := (s.take b).drop a

/-- JS `s.substring(a)`. -/
def substringFrom (s : List Char) (a : Nat) : List Char := s.drop a

/-- JS `a || b` on strings: `b` when `a` is the empty string. -/
def jsOr (a b : List Char) : List Char := if a.isEmpty then b else a

/-- `listStartsWith hay needle`: `needle` is an initial segment of `hay`. -/
def listStartsWith : List Char → List Char → Bool
  | _, [] => true
  | [], _ :: _ => false
  | c :: cs, d :: ds => c == d && listStartsWith cs ds

/-- JS `hay.indexOf(needle)`: index of the first occurrence, if any. -/
def firstOcc : List Char → List Char → Option Nat
  | [], needle => if listStartsWith [] needle then some 0 else none
  | c :: rest, needle =>
      if listStartsWith (c :: rest) needle then some 0
      else (firstOcc rest needle).map (· + 1)

/-- JS `hay.indexOf(needle, start)` (for `start ≤ hay.length`). -/
def idxOfFrom (hay needle : List Char) (start : Nat) : Option Nat :=
  (firstOcc (hay.drop start) needle).map (start + ·)

/-- JS `hay.includes(needle)`. -/
def jsIncludes (hay needle : List Char) : Bool := (firstOcc hay needle).isSome

/-- JS `s.trim()`: whitespace removed from both ends. -/
def trimJS (s : List Char) : List Char :=
  ((s.dropWhile Char.isWhitespace).reverse.dropWhile Char.isWhitespace).reverse

/-- The literal `"..."` used by the snippet code. -/
def ell : List Char := "...".data

/-- A piece of a rendered snippet: plain text, or text wrapped in the
yellow `<span>` highlight. Models the `React.ReactNode` parts array built
by `getHighlightedSnippet`. -/
inductive Seg where
  | plain (text : List Char)
  | highlight (text : List Char)
deriving DecidableEq

/-- The `while (searchIndex !== -1)` loop of `getHighlightedSnippet`
(ProjectStructure.tsx lines 660-686), fuelled: each iteration wraps the
match at `searchIndex` and resumes the search at `searchIndex + termLen`.
After the loop the remaining tail `snippet.substring(currentIndex)` is
pushed when non-empty. -/
def highlightLoop (snippet snippetLower lowerSearch : List Char) (termLen : Nat) :
    Nat → Nat → List Seg
  | fuel, currentIndex =>
    match idxOfFrom snippetLower lowerSearch currentIndex with
    | none =>
        if currentIndex < snippet.length then [Seg.plain (substringFrom snippet currentIndex)]
        else []
    | some searchIndex =>
        match fuel with
        | 0 => []
        | fuel + 1 =>
            (if currentIndex < searchIndex then
              [Seg.plain (substring snippet currentIndex searchIndex)]
            else [])
            ++ Seg.highlight (substring snippet searchIndex (searchIndex + termLen))
              :: highlightLoop snippet snippetLower lowerSearch termLen fuel
                  (searchIndex + termLen)

/-- `getHighlightedSnippet` (ProjectStructure.tsx lines 642-688).
`Nat` subtraction models `Math.max(0, index - 30)`. The call sites use
`maxLength = 100`. -/
def getHighlightedSnippet (text searchTerm : List Char) (maxLength : Nat) : List Seg :=
  let lowerText := lc text
  let lowerSearch := lc searchTerm
  match firstOcc lowerText lowerSearch with
  | none =>
      [Seg.plain (substring text 0 maxLength ++ (if maxLength < text.length then ell else []))]
  | some index =>
      let snippetStart := index - 30
      let snippetEnd := min text.length (index + searchTerm.length + 70)
      let sliced := substring text snippetStart snippetEnd
      let withPre := if 0 < snippetStart then ell ++ sliced else sliced
      let snippet := if snippetEnd < text.length then withPre ++ ell else withPre
      highlightLoop snippet (lc snippet) lowerSearch searchTerm.length (snippet.length + 1) 0

theorem listStartsWith_length_le {hay needle : List Char}
    (h : listStartsWith hay needle = true) : needle.length ≤ hay.length := by
  induction hay generalizing needle with
  | nil => cases needle with
    | nil => simp
    | cons d ds => simp [listStartsWith] at h
  | cons c cs ih => cases needle with
    | nil => simp
    | cons d ds =>
        simp only [listStartsWith, Bool.and_eq_true] at h
        simpa [List.length_cons] using Nat.succ_le_succ (ih h.2)

theorem firstOcc_bound {hay needle : List Char} {i : Nat}
    (h : firstOcc hay needle = some i) : i + needle.length ≤ hay.length := by
  induction hay generalizing i with
  | nil =>
      by_cases hs : listStartsWith [] needle = true
      · simp [firstOcc, hs] at h
        subst h
        simpa using listStartsWith_length_le hs
      · simp [firstOcc, hs] at h
  | cons c cs ih =>
      by_cases hs : listStartsWith (c :: cs) needle = true
      · simp [firstOcc, hs] at h
        subst h
        simpa using listStartsWith_length_le hs
      · simp [firstOcc, hs] at h
        obtain ⟨j, hj, rfl⟩ := h
        have := ih hj
        simp [List.length_cons]
        omega

theorem firstOcc_nil_of_ne {needle : List Char} (h : ¬ needle.isEmpty) :
    firstOcc [] needle = none := by
  cases needle with
  | nil => simp at h
  | cons d ds => simp [firstOcc, listStartsWith]

/-- The specification's highlighting pass: every case-insensitive occurrence
of `q`, matched non-overlapping left-to-right, wrapped as a highlight and
rendered in the original case. -/
def highlightAll (t q : List Char) : List Seg :=
  if hq : q.isEmpty then [Seg.plain t]
  else
    match h : firstOcc (lc t) (lc q) with
    | none => if t.isEmpty then [] else [Seg.plain t]
    | some i =>
        (if 0 < i then [Seg.plain (t.take i)] else [])
        ++ Seg.highlight ((t.drop i).take q.length)
          :: highlightAll ((t.drop i).drop q.length) q
termination_by t.length
decreasing_by
  have hb := firstOcc_bound h
  simp only [lc, List.length_map] at hb
  have hql : 0 < q.length := by
    cases q with
    | nil => simp at hq
    | cons a as => simp
  simp only [List.length_drop]
  omega

/-- The snippet-extraction contract as stated by the specification:
window `[max(0, i-30), min(len, i+len(Q)+70)]` around the first
case-insensitive occurrence, ellipsis on each clamped side, every
occurrence within highlighted; first-`maxLength`-characters fallback
when the query does not occur. -/
def snippetSpec (text q : List Char) (maxLength : Nat) : List Seg :=
  match firstOcc (lc text) (lc q) with
  | none =>
      [Seg.plain (text.take maxLength ++ (if maxLength < text.length then ell else []))]
  | some i =>
      let start := i - 30
      let stop := min text.length (i + q.length + 70)
      let window := (text.take stop).drop start
      let withPre := if 0 < start then ell ++ window else window
      let full := if stop < text.length then withPre ++ ell else withPre
      highlightAll full q

/-- `FileAttachment` (ProjectStructure.tsx lines 6-12). -/
structure FileAttachment where
  id : List Char
  name : List Char
  size : Nat
  uploadedAt : Nat
  data : List Char
deriving DecidableEq

/-- `FolderInfo` (ProjectStructure.tsx lines 14-20). -/
structure FolderInfo where
  id : List Char
  name : List Char
  purpose : List Char
  description : List Char
  attachments : List FileAttachment
deriving DecidableEq

instance : Inhabited FolderInfo := ⟨⟨[], [], [], [], []⟩⟩

/-- A stored document, the `newDocument` shape built by the POST handler
(part_001 lines 51-60); `size` and `type` are absent when the request body
omitted them. -/
structure Document where
  id : List Char
  name : List Char
  size : Option (List Char)
  type : Option (List Char)
  dataUrl : List Char
  uploadedAt : List Char
  category : List Char
  isFavorite : Bool
deriving DecidableEq

instance : Inhabited Document := ⟨⟨[], [], none, none, [], [], [], false⟩⟩

/-- An attachment carried by community posts and comments. -/
structure Attachment where
  id : List Char
  name : List Char
  type : List Char
  size : List Char
  dataUrl : List Char
deriving DecidableEq

/-- A community comment, the `newComment` shape (part_001 lines 241-247). -/
structure Comment where
  id : List Char
  name : List Char
  message : List Char
  timestamp : List Char
  attachments : List Attachment
deriving DecidableEq

/-- A community post, the `newPost` shape (part_001 lines 204-211). -/
structure Post where
  id : List Char
  name : List Char
  message : List Char
  timestamp : List Char
  attachments : List Attachment
  comments : List Comment
deriving DecidableEq

instance : Inhabited Post := ⟨⟨[], [], [], [], [], []⟩⟩

inductive ResultType where
  | folder
  | document
  | discussion
deriving DecidableEq

inductive Repo where
  | ui
  | api
deriving DecidableEq

/-- `SearchResult` (ProjectStructure.tsx lines 608-615). The `onClick`
navigation closure is presentation and is not modelled; the optional
`React.ReactNode` snippet is the `Seg` list built by
`getHighlightedSnippet`. -/
structure SearchResult where
  type : ResultType
  title : List Char
  description : List Char
  highlightedSnippet : Option (List Seg)
  repo : Option Repo
deriving DecidableEq

/-- Decimal digits of a number, for the interpolated comment counts. -/
def natChars (n : Nat) : List Char := Nat.toDigits 10 n

/-- The matching done for one folder by the search effect
(ProjectStructure.tsx lines 711-740 for UI folders, 743-772 for API
folders, identical up to the `repo` tag and the default description):
returns the pushed `SearchResult` when the folder matches. -/
def folderMatch (repo : Repo) (searchTerm : List Char) (folder : FolderInfo) :
    Option SearchResult :=
  let searchLower := lc searchTerm
  let matchedText :=
    if jsIncludes (lc folder.name) searchLower then
      jsOr folder.description (jsOr folder.purpose [])
    else if jsIncludes (lc folder.purpose) searchLower then folder.purpose
    else if jsIncludes (lc folder.description) searchLower then folder.description
    else []
  if !matchedText.isEmpty || jsIncludes (lc folder.name) searchLower then
    some { type := ResultType.folder
           title := folder.name
           description := jsOr folder.purpose
             (match repo with
              | .ui => "UI Test Automation Folder".data
              | .api => "API Test Automation Folder".data)
           highlightedSnippet :=
             if matchedText.isEmpty then none
             else some (getHighlightedSnippet matchedText searchTerm 100)
           repo := some repo }
  else none

/-- The matching done for one document (ProjectStructure.tsx lines
775-788); the locale-rendered upload date of the descriptor is abstracted
to the raw `uploadedAt` string. -/
def docMatch (searchTerm : List Char) (doc : Document) : Option SearchResult :=
  if jsIncludes (lc doc.name) (lc searchTerm) then
    some { type := ResultType.document
           title := doc.name
           description := "Uploaded ".data ++ doc.uploadedAt
           highlightedSnippet := none
           repo := none }
  else none

/-- The `for (const comment of discussion.comments)` scan
(ProjectStructure.tsx lines 806-819): first comment whose message, else
name, contains the query; returns `(matchedText, matchReason)`. -/
def commentScan (searchLower : List Char) : List Comment → Option (List Char × List Char)
  | [] => none
  | comment :: rest =>
      if jsIncludes (lc comment.message) searchLower then
        some (comment.message, "In comment by ".data ++ comment.name)
      else if jsIncludes (lc comment.name) searchLower then
        some (jsOr comment.message ("Comment by ".data ++ comment.name),
              "Comment author: ".data ++ comment.name)
      else commentScan searchLower rest

/-- The matching done for one discussion (ProjectStructure.tsx lines
791-842). -/
def discussionMatch (searchTerm : List Char) (discussion : Post) : Option SearchResult :=
  let searchLower := lc searchTerm
  let titleMatches := jsIncludes (lc discussion.name) searchLower
  let found :=
    if jsIncludes (lc discussion.message) searchLower then
      some (discussion.message,
            "In post • ".data ++ natChars discussion.comments.length ++ " comments".data)
    else commentScan searchLower discussion.comments
  let matchedText := (found.map Prod.fst).getD []
  let matchReason := (found.map Prod.snd).getD []
  if titleMatches || !matchedText.isEmpty then
    some { type := ResultType.discussion
           title := jsOr discussion.name "Untitled".data
           description :=
             if matchedText.isEmpty then natChars discussion.comments.length ++ " comments".data
             else matchReason
           highlightedSnippet :=
             if matchedText.isEmpty then none
             else some (getHighlightedSnippet matchedText searchTerm 100)
           repo := none }
  else none

/-- The four-collection snapshot handed to `GlobalSearch`. -/
structure Snapshot where
  uiFolders : List FolderInfo
  apiFolders : List FolderInfo
  documents : List Document
  discussions : List Post
deriving DecidableEq

/-- `foundResults.push(...)` guarded by the per-entity match. -/
def pushMatch {α : Type} (f : α → Option SearchResult)
    (acc : List SearchResult) (x : α) : List SearchResult :=
  match f x with
  | some r => acc ++ [r]
  | none => acc

/-- The search effect of `GlobalSearch` (ProjectStructure.tsx lines
701-845): empty-after-trim queries clear the results; otherwise the four
collections are scanned in order, each match pushed onto `foundResults`,
and the list is capped at 10. -/
def searchEffect (snap : Snapshot) (searchTerm : List Char) : List SearchResult :=
  if (trimJS searchTerm).isEmpty then []
  else
    let foundResults : List SearchResult := []
    let foundResults := snap.uiFolders.foldl
      (pushMatch (folderMatch Repo.ui searchTerm)) foundResults
    let foundResults := snap.apiFolders.foldl
      (pushMatch (folderMatch Repo.api searchTerm)) foundResults
    let foundResults := snap.documents.foldl
      (pushMatch (docMatch searchTerm)) foundResults
    let foundResults := snap.discussions.foldl
      (pushMatch (discussionMatch searchTerm)) foundResults
    foundResults.take 10

/-- JS truthiness test of a possibly-absent string field (`!name`):
true when the field is absent or the empty string. -/
def strFalsy : Option (List Char) → Bool
  | none => true
  | some s => s.isEmpty

/-- JS `v || dflt` for a possibly-absent string field. -/
def jsOrOpt (v : Option (List Char)) (dflt : List Char) : List Char :=
  match v with
  | none => dflt
  | some s => if s.isEmpty then dflt else s

/-- The JSON body of POST `/documents` (part_001 line 44): `none` marks an
absent key. -/
structure DocumentBody where
  name : Option (List Char)
  size : Option (List Char)
  type : Option (List Char)
  dataUrl : Option (List Char)
  uploadedAt : Option (List Char)
  category : Option (List Char)
  isFavorite : Option Bool
deriving DecidableEq

/-- The `newDocument` record literal (part_001 lines 51-60); `newId`
stands for `crypto.randomUUID()` and `now` for
`new Date().toISOString()`. -/
def newDocumentOf (body : DocumentBody) (newId now : List Char) : Document :=
  { id := newId
    name := body.name.getD []
    size := body.size
    type := body.type
    dataUrl := body.dataUrl.getD []
    uploadedAt := jsOrOpt body.uploadedAt now
    category := jsOrOpt body.category "Uncategorized".data
    isFavorite := body.isFavorite.getD false }

/-- Outcome of POST `/documents`: a 400 returns before any `kv.set`;
`created` carries the value written back under `wis-documents`. -/
inductive DocPostRes where
  | badRequest (error : List Char)
  | created (store : List Document) (document : Document)
deriving DecidableEq

def DocPostRes.status : DocPostRes → Nat
  | .badRequest _ => 400
  | .created _ _ => 200

/-- The value under `wis-documents` after the request (`badRequest`
performs no write). -/
def DocPostRes.storeAfter (prev : List Document) : DocPostRes → List Document
  | .badRequest _ => prev
  | .created s _ => s

/-- POST `/documents` (part_001 lines 41-70), acting on the value stored
under `wis-documents` (`none` when the key is unset). -/
def postDocument (stored : Option (List Document)) (body : DocumentBody)
    (newId now : List Char) : DocPostRes :=
  if strFalsy body.name || strFalsy body.dataUrl then
    .badRequest "Missing required fields: name and dataUrl".data
  else
    let documents := stored.getD []
    let newDocument := newDocumentOf body newId now
    .created (documents ++ [newDocument]) newDocument

/-- Outcome of DELETE `/documents/:id`: `notFound` (HTTP 404) returns
before any `kv.set`. -/
inductive DocDeleteRes where
  | notFound
  | deleted (store : List Document)
deriving DecidableEq

def DocDeleteRes.status : DocDeleteRes → Nat
  | .notFound => 404
  | .deleted _ => 200

def DocDeleteRes.storeAfter (prev : List Document) : DocDeleteRes → List Document
  | .notFound => prev
  | .deleted s => s

/-- DELETE `/documents/:id` (part_001 lines 73-90). -/
def deleteDocument (stored : Option (List Document)) (id : List Char) : DocDeleteRes :=
  let documents := stored.getD []
  let filteredDocuments := documents.filter (fun doc => doc.id != id)
  if filteredDocuments.length = documents.length then .notFound
  else .deleted filteredDocuments

/-- The JSON body of PUT `/documents/:id`: `none` marks an absent key. -/
structure DocUpdate where
  id : Option (List Char)
  name : Option (List Char)
  size : Option (List Char)
  type : Option (List Char)
  dataUrl : Option (List Char)
  uploadedAt : Option (List Char)
  category : Option (List Char)
  isFavorite : Option Bool
deriving DecidableEq

/-- `{...documents[docIndex], ...body, id}` (part_001 lines 106-110): a
body key that is present replaces the stored field, the trailing `id`
forces the path parameter back, so an `id` in the body is ignored. -/
def mergeDoc (doc : Document) (body : DocUpdate) (id : List Char) : Document :=
  { id := id
    name := body.name.getD doc.name
    size := match body.size with | some v => some v | none => doc.size
    type := match body.type with | some v => some v | none => doc.type
    dataUrl := body.dataUrl.getD doc.dataUrl
    uploadedAt := body.uploadedAt.getD doc.uploadedAt
    category := body.category.getD doc.category
    isFavorite := body.isFavorite.getD doc.isFavorite }

inductive DocPutRes where
  | notFound
  | updated (store : List Document) (document : Document)
deriving DecidableEq

def DocPutRes.status : DocPutRes → Nat
  | .notFound => 404
  | .updated _ _ => 200

/-- PUT `/documents/:id` (part_001 lines 93-118). -/
def putDocument (stored : Option (List Document)) (id : List Char)
    (body : DocUpdate) : DocPutRes :=
  let documents := stored.getD []
  match documents.findIdx? (fun doc => doc.id == id) with
  | none => .notFound
  | some docIndex =>
      let merged := mergeDoc (documents.getD docIndex default) body id
      .updated (documents.set docIndex merged) merged

/-- The JSON body of POST `/community/posts/:id/comments`. -/
structure CommentBody where
  name : Option (List Char)
  message : Option (List Char)
  attachments : Option (List Attachment)
deriving DecidableEq

/-- Outcome of POST `/community/posts/:id/comments`: `badRequest` (400)
and `notFound` (404) return before any `kv.set`. -/
inductive CommentPostRes where
  | badRequest (error : List Char)
  | notFound
  | added (store : List Post) (comment : Comment)
deriving DecidableEq

def CommentPostRes.status : CommentPostRes → Nat
  | .badRequest _ => 400
  | .notFound => 404
  | .added _ _ => 200

def CommentPostRes.storeAfter (prev : List Post) : CommentPostRes → List Post
  | .badRequest _ => prev
  | .notFound => prev
  | .added s _ => s

/-- POST `/community/posts/:id/comments` (part_001 lines 224-257). -/
def addComment (stored : Option (List Post)) (postId : List Char)
    (body : CommentBody) (newId now : List Char) : CommentPostRes :=
  if strFalsy body.name || strFalsy body.message then
    .badRequest "Missing required fields: name and message".data
  else
    let posts := stored.getD []
    match posts.findIdx? (fun p => p.id == postId) with
    | none => .notFound
    | some postIndex =>
        let newComment : Comment :=
          { id := newId
            name := body.name.getD []
            message := body.message.getD []
            timestamp := now
            attachments := body.attachments.getD [] }
        let post := posts.getD postIndex default
        .added (posts.set postIndex { post with comments := post.comments ++ [newComment] })
          newComment

/-- GET `/documents` (part_001 lines 30-38): `documents || []`. The catch
branch only fires on store-adapter failures, which the embedding models as
a total lookup, so the handler always succeeds. -/
def getDocuments (stored : Option (List Document)) :
    Except (Nat × List Char) (List Document) :=
  .ok (stored.getD [])

/-- GET `/structure/ui` (part_001 lines 123-131): `structure || []`. -/
def getUIStructure (stored : Option (List FolderInfo)) :
    Except (Nat × List Char) (List FolderInfo) :=
  .ok (stored.getD [])

/-- GET `/structure/api` (part_001 lines 152-160): `structure || []`. -/
def getAPIStructure (stored : Option (List FolderInfo)) :
    Except (Nat × List Char) (List FolderInfo) :=
  .ok (stored.getD [])

/-- GET `/community/posts` (part_001 lines 183-191): `posts || []`. -/
def getCommunityPosts (stored : Option (List Post)) :
    Except (Nat × List Char) (List Post) :=
  .ok (stored.getD [])

inductive Dir where
  | up
  | down
deriving DecidableEq

/-- `moveFolder` (ProjectStructure.tsx lines 167-175): `targetIndex` is
computed in ℤ like the JS number, the guard is `targetIndex >= 0 &&
targetIndex < newFolders.length`, and the destructuring swap assigns both
positions from the original array. -/
def moveFolder (currentFolders : List FolderInfo) (index : Nat) (direction : Dir) :
    List FolderInfo :=
  let targetIndex : Int :=
    match direction with
    | .up => (index : Int) - 1
    | .down => (index : Int) + 1
  if 0 ≤ targetIndex ∧ targetIndex < (currentFolders.length : Int) then
    (currentFolders.set index (currentFolders.getD targetIndex.toNat default)).set
      targetIndex.toNat (currentFolders.getD index default)
  else currentFolders

/-- A local mutation of the active folder collection. -/
inductive Mutation where
  | add (newFolder : FolderInfo)
  | editSave (editingFolder : List Char) (editData : FolderInfo)
  | delete (folderName : List Char)
  | move (index : Nat) (direction : Dir)
deriving DecidableEq

/-- The local state updates of `ProjectStructure`: `handleAddFolder`
(lines 150-158), `handleSave` (135-143), `handleDeleteFolder` (160-165)
and `moveFolder` (167-175). -/
def applyMutation (folders : List FolderInfo) : Mutation → List FolderInfo
  | .add newFolder => folders ++ [newFolder]
  | .editSave editingFolder editData =>
      folders.map (fun folder => if folder.name == editingFolder then editData else folder)
  | .delete folderName => folders.filter (fun folder => folder.name != folderName)
  | .move index direction => moveFolder folders index direction

/-- One local mutation followed by the save effect (ProjectStructure.tsx
lines 92-107): the effect posts the entire current array to the store key,
but only when `folders.length > 0`. Returns the pair (local state, store
value) after the step. -/
def mutationStep (folders stored : List FolderInfo) (m : Mutation) :
    List FolderInfo × List FolderInfo :=
  let updated := applyMutation folders m
  (updated, if 0 < updated.length then updated else stored)

/-- Sample documents for concrete instances. -/
def docA : Document := ⟨"a".data, "x".data, none, none, "u".data, "t".data, "c".data, false⟩

def docB : Document := ⟨"b".data, "y".data, none, none, "v".data, "s".data, "c".data, false⟩

/-- Sample folders for concrete instances. -/
def folderA : FolderInfo := ⟨"A".data, "A".data, [], [], []⟩

def folderB : FolderInfo := ⟨"B".data, "B".data, [], [], []⟩

def folderC : FolderInfo := ⟨"C".data, "C".data, [], [], []⟩

theorem highlightAll_none {t q : List Char} (hq : ¬ q.isEmpty)
    (h : firstOcc (lc t) (lc q) = none) :
    highlightAll t q = if t.isEmpty then [] else [Seg.plain t] := by
  rw [highlightAll, dif_neg hq]
  split
  · rfl
  · rename_i i hi
    rw [h] at hi
    exact absurd hi (by simp)

theorem highlightAll_some {t q : List Char} {i : Nat} (hq : ¬ q.isEmpty)
    (h : firstOcc (lc t) (lc q) = some i) :
    highlightAll t q =
      (if 0 < i then [Seg.plain (t.take i)] else [])
      ++ Seg.highlight ((t.drop i).take q.length)
        :: highlightAll ((t.drop i).drop q.length) q := by
  rw [highlightAll, dif_neg hq]
  split
  · rename_i hn
    rw [h] at hn
    exact absurd hn (by simp)
  · rename_i j hj
    rw [h] at hj
    cases hj
    rfl

theorem highlightLoop_none {s sl lq : List Char} {L fuel c : Nat}
    (h : idxOfFrom sl lq c = none) :
    highlightLoop s sl lq L fuel c =
      if c < s.length then [Seg.plain (substringFrom s c)] else [] := by
  rw [highlightLoop, h]

theorem highlightLoop_some {s sl lq : List Char} {L fuel c j : Nat}
    (h : idxOfFrom sl lq c = some j) :
    highlightLoop s sl lq L (fuel + 1) c =
      (if c < j then [Seg.plain (substring s c j)] else [])
      ++ Seg.highlight (substring s j (j + L))
        :: highlightLoop s sl lq L fuel (j + L) := by
  rw [highlightLoop, h]

theorem idxOfFrom_lc (s q : List Char) (c : Nat) :
    idxOfFrom (lc s) (lc q) c = (firstOcc (lc (s.drop c)) (lc q)).map (c + ·) := by
  simp [idxOfFrom, lc, List.map_drop]

theorem highlightLoop_eq (s q : List Char) (hq : ¬ q.isEmpty) :
    ∀ (fuel c : Nat), s.length < fuel + c →
      highlightLoop s (lc s) (lc q) q.length fuel c = highlightAll (s.drop c) q := by
  have hlq : ¬ (lc q).isEmpty := by
    cases q with
    | nil => simp at hq
    | cons a as => simp [lc]
  have hql : 0 < q.length := by
    cases q with
    | nil => simp at hq
    | cons a as => simp
  intro fuel
  induction fuel with
  | zero =>
      intro c hc
      have hdrop : s.drop c = [] := by
        rw [List.drop_eq_nil_iff]
        omega
      have hnone : firstOcc (lc (s.drop c)) (lc q) = none := by
        rw [hdrop]
        exact firstOcc_nil_of_ne hlq
      have hidx : idxOfFrom (lc s) (lc q) c = none := by
        rw [idxOfFrom_lc, hnone]
        rfl
      rw [highlightLoop_none hidx, highlightAll_none hq hnone, hdrop]
      simp
      omega
  | succ n ih =>
      intro c hc
      cases h : firstOcc (lc (s.drop c)) (lc q) with
      | none =>
          have hidx : idxOfFrom (lc s) (lc q) c = none := by
            rw [idxOfFrom_lc, h]
            rfl
          rw [highlightLoop_none hidx, highlightAll_none hq h]
          by_cases hcl : c < s.length
          · have : ¬ (s.drop c).isEmpty := by
              simp [List.isEmpty_iff, List.drop_eq_nil_iff]
              omega
            rw [if_pos hcl, if_neg this]
            rfl
          · have : (s.drop c).isEmpty := by
              simp [List.isEmpty_iff, List.drop_eq_nil_iff]
              omega
            rw [if_neg hcl, if_pos this]
      | some i =>
          have hidx : idxOfFrom (lc s) (lc q) c = some (c + i) := by
            rw [idxOfFrom_lc, h]
            rfl
          have hb := firstOcc_bound h
          simp only [lc, List.length_map, List.length_drop] at hb
          rw [highlightLoop_some hidx, highlightAll_some hq h]
          have e1 : (s.drop c).take i = substring s c (c + i) := by
            rw [List.take_drop]
            rfl
          have e2 : ((s.drop c).drop i).take q.length = substring s (c + i) (c + i + q.length) := by
            rw [List.drop_drop, List.take_drop]
            rfl
          have e3 : ((s.drop c).drop i).drop q.length = s.drop (c + i + q.length) := by
            rw [List.drop_drop, List.drop_drop]
            congr 1
            omega
          have e4 : highlightLoop s (lc s) (lc q) q.length n (c + i + q.length)
              = highlightAll (s.drop (c + i + q.length)) q := by
            apply ih
            omega
          rw [e1, e2, e3, e4]
          by_cases hpos : 0 < i
          · rw [if_pos (by omega : c < c + i), if_pos hpos]
          · rw [if_neg (by omega : ¬ c < c + i), if_neg hpos]

/-- C1. For a non-empty query, `getHighlightedSnippet` returns exactly the
snippet described by the specification: the window
`[max(0, i-30), min(len(T), i+len(Q)+70)]` around the first
case-insensitive occurrence, with `"..."` prefixed exactly when the start
was clamped and suffixed exactly when the end was clamped, every
case-insensitive occurrence of the query inside the snippet wrapped as a
highlight (non-overlapping, left-to-right, in original case); and when the
query does not occur, the first 100 characters with a trailing `"..."`
exactly when the text is longer than 100 characters, unhighlighted. -/
theorem highlightLoop_run (s q : List Char) (hq : ¬ q.isEmpty) :
    highlightLoop s (lc s) (lc q) q.length (s.length + 1) 0 = highlightAll s q := by
  have h := highlightLoop_eq s q hq (s.length + 1) 0 (by omega)
  simpa using h

theorem getHighlightedSnippet_spec (text q : List Char) (hq : q ≠ []) :
    getHighlightedSnippet text q 100 = snippetSpec text q 100 := by
  have hq' : ¬ q.isEmpty := by simpa using hq
  simp only [getHighlightedSnippet, snippetSpec]
  cases h : firstOcc (lc text) (lc q) with
  | none =>
      simp only [h]
      simp [substring]
  | some i =>
      simp only [h, substring]
      rw [highlightLoop_run _ _ hq']

/-- Witness for C1 at a concrete input. -/
theorem getHighlightedSnippet_spec_witness :
    "fox".data ≠ [] ∧
      getHighlightedSnippet "The quick brown fox jumps over the lazy dog".data "fox".data 100
        = snippetSpec "The quick brown fox jumps over the lazy dog".data "fox".data 100 :=
  ⟨by decide, getHighlightedSnippet_spec _ _ (by decide)⟩

theorem foldl_pushMatch {α : Type} (f : α → Option SearchResult) :
    ∀ (l : List α) (acc : List SearchResult),
      l.foldl (pushMatch f) acc = acc ++ l.filterMap f := by
  intro l
  induction l with
  | nil => intro acc; simp
  | cons x xs ih =>
      intro acc
      cases h : f x with
      | none => simp [pushMatch, h, ih]
      | some r => simp [pushMatch, h, ih]

/-- C2. The search effect returns no results on a query that is empty
after trimming, and otherwise returns the first 10 matches taken in the
order UI folders, API folders, documents, discussions, each collection in
its array order, with no other ranking. -/
theorem searchEffect_spec (snap : Snapshot) (q : List Char) :
    searchEffect snap q =
      if (trimJS q).isEmpty then []
      else
        (snap.uiFolders.filterMap (folderMatch Repo.ui q)
          ++ snap.apiFolders.filterMap (folderMatch Repo.api q)
          ++ snap.documents.filterMap (docMatch q)
          ++ snap.discussions.filterMap (discussionMatch q)).take 10 := by
  unfold searchEffect
  by_cases h : (trimJS q).isEmpty
  · simp [h]
  · simp only [h, Bool.false_eq_true, if_false]
    rw [foldl_pushMatch, foldl_pushMatch, foldl_pushMatch, foldl_pushMatch]
    simp [List.append_assoc]

/-- C10. Every collection GET endpoint answers a missing stored value
with success and the empty array under its response key. -/
theorem getEndpoints_empty_store :
    getDocuments none = Except.ok []
    ∧ getUIStructure none = Except.ok []
    ∧ getAPIStructure none = Except.ok []
    ∧ getCommunityPosts none = Except.ok [] :=
  ⟨rfl, rfl, rfl, rfl⟩

theorem set_swap_getD {α : Type} [Inhabited α] (l : List α) (i t : Nat)
    (hi : i < l.length) (ht : t < l.length) (hne : i ≠ t) :
    ((l.set i (l.getD t default)).set t (l.getD i default)).getD t default = l.getD i default
    ∧ ((l.set i (l.getD t default)).set t (l.getD i default)).getD i default = l.getD t default
    ∧ ∀ j, j ≠ i → j ≠ t →
        ((l.set i (l.getD t default)).set t (l.getD i default)).getD j default
          = l.getD j default := by
  simp only [List.getD_eq_getElem?_getD]
  refine ⟨?_, ?_, ?_⟩
  · rw [List.getElem?_set_self (by simpa using ht)]
    simp
  · rw [List.getElem?_set_ne (by omega), List.getElem?_set_self hi]
    simp
  · intro j hj1 hj2
    rw [List.getElem?_set_ne (by omega), List.getElem?_set_ne (by omega)]

/-- C8. For every index into the folder array, moving up swaps the entry
with its left neighbour when the index is at least 1 and is a no-op at
index 0; moving down swaps with the right neighbour when one exists and
is a no-op at the last index. -/
theorem moveFolder_spec (s : List FolderInfo) (i : Nat) (hi : i < s.length) :
    (1 ≤ i →
      ((moveFolder s i Dir.up).getD (i - 1) default = s.getD i default
        ∧ (moveFolder s i Dir.up).getD i default = s.getD (i - 1) default
        ∧ ∀ j, j ≠ i → j ≠ i - 1 →
            (moveFolder s i Dir.up).getD j default = s.getD j default))
    ∧ (i = 0 → moveFolder s i Dir.up = s)
    ∧ (i + 1 < s.length →
      ((moveFolder s i Dir.down).getD (i + 1) default = s.getD i default
        ∧ (moveFolder s i Dir.down).getD i default = s.getD (i + 1) default
        ∧ ∀ j, j ≠ i → j ≠ i + 1 →
            (moveFolder s i Dir.down).getD j default = s.getD j default))
    ∧ (i = s.length - 1 → moveFolder s i Dir.down = s) := by
  refine ⟨?_, ?_, ?_, ?_⟩
  · intro h1
    have htn : ((i : Int) - 1).toNat = i - 1 := by omega
    simp only [moveFolder]
    rw [if_pos (by constructor <;> omega), htn]
    have hsw := set_swap_getD s i (i - 1) hi (by omega) (by omega)
    exact ⟨hsw.1, hsw.2.1, hsw.2.2⟩
  · intro h0
    subst h0
    simp only [moveFolder]
    rw [if_neg (by omega)]
  · intro h1
    have htn : ((i : Int) + 1).toNat = i + 1 := by omega
    simp only [moveFolder]
    rw [if_pos (by constructor <;> omega), htn]
    have hsw := set_swap_getD s i (i + 1) hi (by omega) (by omega)
    exact ⟨hsw.1, hsw.2.1, hsw.2.2⟩
  · intro hlast
    simp only [moveFolder]
    rw [if_neg (by omega)]

/-- Witness for C8: on `[A, B, C]`, moving `B` up yields `[B, A, C]` and
moving `A` up is a no-op. -/
theorem moveFolder_spec_witness :
    (1 : Nat) < ([folderA, folderB, folderC] : List FolderInfo).length
    ∧ moveFolder [folderA, folderB, folderC] 1 Dir.up = [folderB, folderA, folderC]
    ∧ moveFolder [folderA, folderB, folderC] 0 Dir.up = [folderA, folderB, folderC] :=
  ⟨by decide, by decide,
    (moveFolder_spec [folderA, folderB, folderC] 0 (by decide)).2.1 rfl⟩

/-- C9 counterexample: deleting the only folder empties the local array,
but the save effect skips empty arrays, so the persisted value stays
`[A]`, different from the post-mutation local array. -/
theorem mutationStep_counterexample :
    (mutationStep [folderA] [folderA] (Mutation.delete "A".data)).1 = []
    ∧ (mutationStep [folderA] [folderA] (Mutation.delete "A".data)).2 = [folderA]
    ∧ ([folderA] : List FolderInfo) ≠ [] := by
  decide

/-- C9 (amended). A local mutation whose resulting folder array is
non-empty is persisted as a full-array overwrite, so the store equals the
post-mutation local array; a mutation that empties the array performs no
write and the store keeps its previous value. -/
theorem mutationStep_spec (folders stored : List FolderInfo) (m : Mutation) :
    (applyMutation folders m ≠ [] →
        mutationStep folders stored m = (applyMutation folders m, applyMutation folders m))
    ∧ (applyMutation folders m = [] → mutationStep folders stored m = ([], stored)) := by
  constructor
  · intro h
    have hl : 0 < (applyMutation folders m).length := List.length_pos.mpr h
    simp [mutationStep, hl]
  · intro h
    simp [mutationStep, h]

/-- Witness for C9 at a concrete input. -/
theorem mutationStep_spec_witness :
    applyMutation [] (Mutation.add folderA) ≠ []
    ∧ mutationStep [] [] (Mutation.add folderA) = ([folderA], [folderA]) :=
  ⟨by decide, (mutationStep_spec [] [] (Mutation.add folderA)).1 (by decide)⟩

theorem findIdx?_none_of_all {α : Type} (p : α → Bool) (l : List α)
    (h : ∀ a ∈ l, p a = false) : ∀ s, l.findIdx? p s = none := by
  induction l with
  | nil => intro s; rfl
  | cons x xs ih =>
      intro s
      have hx : p x = false := h x (by simp)
      rw [List.findIdx?_cons, hx]
      simpa using ih (fun a ha => h a (by simp [ha])) (s + 1)

/-- C7. ID-addressed operations on an id that matches no record answer
404 and perform no store write: DELETE `/documents/:id` on an unknown
document id, and POST `/community/posts/:id/comments` with a valid body
on an unknown post id. -/
theorem notFound_no_write (stored : List Document) (d : List Char)
    (hD : ∀ doc ∈ stored, doc.id ≠ d)
    (posts : List Post) (pid : List Char) (body : CommentBody)
    (newId now : List Char)
    (hn : strFalsy body.name = false) (hm : strFalsy body.message = false)
    (hP : ∀ p ∈ posts, p.id ≠ pid) :
    (deleteDocument (some stored) d).status = 404
    ∧ DocDeleteRes.storeAfter stored (deleteDocument (some stored) d) = stored
    ∧ (addComment (some posts) pid body newId now).status = 404
    ∧ CommentPostRes.storeAfter posts (addComment (some posts) pid body newId now) = posts := by
  have hfil : stored.filter (fun doc => doc.id != d) = stored := by
    rw [List.filter_eq_self]
    intro a ha
    simpa using hD a ha
  have hdel : deleteDocument (some stored) d = DocDeleteRes.notFound := by
    unfold deleteDocument
    simp [hfil]
  have hidx : posts.findIdx? (fun p => p.id == pid) = none :=
    findIdx?_none_of_all _ _ (fun a ha => by simpa using hP a ha) 0
  have hadd : addComment (some posts) pid body newId now = CommentPostRes.notFound := by
    unfold addComment
    simp [hn, hm, hidx]
  rw [hdel, hadd]
  exact ⟨rfl, rfl, rfl, rfl⟩

/-- Witness for C7 at concrete inputs. -/
theorem notFound_no_write_witness :
    (deleteDocument (some [docA]) "b".data).status = 404
    ∧ (addComment (some ([] : List Post)) "x".data
        (⟨some "n".data, some "m".data, none⟩ : CommentBody) "i".data "t".data).status = 404 := by
  have h := notFound_no_write [docA] "b".data (by decide) [] "x".data
    ⟨some "n".data, some "m".data, none⟩ "i".data "t".data (by decide) (by decide) (by decide)
  exact ⟨h.1, h.2.2.1⟩

/-- C4. A POST `/documents` body carrying `name` and `dataUrl` appends
exactly one document with the server-generated id, with `uploadedAt`
defaulting to the current time, `category` defaulting to
`"Uncategorized"` and `isFavorite` defaulting to `false` when not
supplied; a subsequent GET `/documents` lists it exactly once. -/
theorem postDocument_spec (stored : List Document) (body : DocumentBody)
    (newId now : List Char)
    (hn : strFalsy body.name = false) (hd : strFalsy body.dataUrl = false)
    (hfresh : ∀ doc ∈ stored, doc.id ≠ newId) :
    postDocument (some stored) body newId now
        = DocPostRes.created (stored ++ [newDocumentOf body newId now])
            (newDocumentOf body newId now)
    ∧ (newDocumentOf body newId now).id = newId
    ∧ (body.uploadedAt = none → (newDocumentOf body newId now).uploadedAt = now)
    ∧ (body.category = none →
        (newDocumentOf body newId now).category = "Uncategorized".data)
    ∧ (body.isFavorite = none → (newDocumentOf body newId now).isFavorite = false)
    ∧ getDocuments (some (stored ++ [newDocumentOf body newId now]))
        = Except.ok (stored ++ [newDocumentOf body newId now])
    ∧ (stored ++ [newDocumentOf body newId now]).countP (fun doc => doc.id == newId) = 1 := by
  refine ⟨?_, rfl, ?_, ?_, ?_, rfl, ?_⟩
  · unfold postDocument
    simp [hn, hd]
  · intro h
    simp [newDocumentOf, jsOrOpt, h]
  · intro h
    simp [newDocumentOf, jsOrOpt, h]
  · intro h
    simp [newDocumentOf, h]
  · rw [List.countP_append]
    have h0 : stored.countP (fun doc => doc.id == newId) = 0 := by
      rw [List.countP_eq_zero]
      intro a ha
      simpa using hfresh a ha
    have h1 : ([newDocumentOf body newId now] : List Document).countP
        (fun doc => doc.id == newId) = 1 := by
      simp [newDocumentOf]
    rw [h0, h1]

/-- Witness for C4 at a concrete input. -/
theorem postDocument_spec_witness :
    postDocument (some []) (⟨some "a".data, none, none, some "d".data, none, none, none⟩ :
        DocumentBody) "i".data "t".data
      = DocPostRes.created
          [newDocumentOf ⟨some "a".data, none, none, some "d".data, none, none, none⟩
            "i".data "t".data]
          (newDocumentOf ⟨some "a".data, none, none, some "d".data, none, none, none⟩
            "i".data "t".data)
    ∧ (newDocumentOf ⟨some "a".data, none, none, some "d".data, none, none, none⟩
        "i".data "t".data).category = "Uncategorized".data := by
  have h := postDocument_spec [] ⟨some "a".data, none, none, some "d".data, none, none, none⟩
    "i".data "t".data (by decide) (by decide) (by decide)
  exact ⟨h.1, h.2.2.2.1 rfl⟩

/-- C5 counterexample: a body carrying `name` and `dataUrl` but no `size`
(and no `type`) is accepted with status 200, not rejected with 400 as the
claim requires for a missing `size`. -/
theorem postDocument_validation_counterexample :
    (⟨some "a".data, none, none, some "d".data, none, none, none⟩ : DocumentBody).size = none
    ∧ (postDocument (some [])
        (⟨some "a".data, none, none, some "d".data, none, none, none⟩ : DocumentBody)
        "i".data "t".data).status = 200 := by
  decide

/-- C5 (amended). POST `/documents` answers 400 — performing no store
write — if and only if `name` or `dataUrl` is absent or empty; `size` and
`type` are never validated. -/
theorem postDocument_validation (stored : Option (List Document)) (body : DocumentBody)
    (newId now : List Char) :
    ((postDocument stored body newId now).status = 400
      ↔ (strFalsy body.name || strFalsy body.dataUrl) = true)
    ∧ ((strFalsy body.name || strFalsy body.dataUrl) = true →
        postDocument stored body newId now
          = DocPostRes.badRequest "Missing required fields: name and dataUrl".data) := by
  by_cases h : (strFalsy body.name || strFalsy body.dataUrl) = true
  · constructor
    · unfold postDocument
      simp [h, DocPostRes.status]
    · intro _
      unfold postDocument
      simp [h]
  · constructor
    · unfold postDocument
      simp [h, DocPostRes.status]
    · intro hh
      exact absurd hh h

/-- Witness for C5 at a concrete input. -/
theorem postDocument_validation_witness :
    postDocument none (⟨none, none, none, none, none, none, none⟩ : DocumentBody)
        "i".data "t".data
      = DocPostRes.badRequest "Missing required fields: name and dataUrl".data :=
  (postDocument_validation none ⟨none, none, none, none, none, none, none⟩
    "i".data "t".data).2 (by decide)

/-- C6. PUT `/documents/:id` on the first stored document whose id is `d`
replaces it with the shallow merge of the record and the partial body,
keeps the id equal to `d` even when the body carries an `id`, leaves
every field absent from the body, every other document and the collection
order unchanged. -/
theorem putDocument_spec (stored : List Document) (d : List Char) (body : DocUpdate)
    (k : Nat) (hk : stored.findIdx? (fun doc => doc.id == d) = some k) :
    putDocument (some stored) d body
        = DocPutRes.updated (stored.set k (mergeDoc (stored.getD k default) body d))
            (mergeDoc (stored.getD k default) body d)
    ∧ (stored.set k (mergeDoc (stored.getD k default) body d)).length = stored.length
    ∧ (∀ j, j ≠ k →
        (stored.set k (mergeDoc (stored.getD k default) body d))[j]? = stored[j]?)
    ∧ (mergeDoc (stored.getD k default) body d).id = d
    ∧ (body.name = none →
        (mergeDoc (stored.getD k default) body d).name = (stored.getD k default).name)
    ∧ (body.size = none →
        (mergeDoc (stored.getD k default) body d).size = (stored.getD k default).size)
    ∧ (body.type = none →
        (mergeDoc (stored.getD k default) body d).type = (stored.getD k default).type)
    ∧ (body.dataUrl = none →
        (mergeDoc (stored.getD k default) body d).dataUrl = (stored.getD k default).dataUrl)
    ∧ (body.uploadedAt = none →
        (mergeDoc (stored.getD k default) body d).uploadedAt
          = (stored.getD k default).uploadedAt)
    ∧ (body.category = none →
        (mergeDoc (stored.getD k default) body d).category = (stored.getD k default).category)
    ∧ (body.isFavorite = none →
        (mergeDoc (stored.getD k default) body d).isFavorite
          = (stored.getD k default).isFavorite)
    ∧ (∀ b, body.isFavorite = some b →
        (mergeDoc (stored.getD k default) body d).isFavorite = b) := by
  refine ⟨?_, by simp, ?_, rfl, ?_, ?_, ?_, ?_, ?_, ?_, ?_, ?_⟩
  · unfold putDocument
    simp [hk]
  · intro j hj
    exact List.getElem?_set_ne (by omega)
  · intro h
    simp [mergeDoc, h]
  · intro h
    simp [mergeDoc, h]
  · intro h
    simp [mergeDoc, h]
  · intro h
    simp [mergeDoc, h]
  · intro h
    simp [mergeDoc, h]
  · intro h
    simp [mergeDoc, h]
  · intro h
    simp [mergeDoc, h]
  · intro b hb
    simp [mergeDoc, hb]

/-- Witness for C6: flagging the second of two documents favorite. -/
theorem putDocument_spec_witness :
    putDocument (some [docA, docB]) "b".data
        (⟨none, none, none, none, none, none, none, some true⟩ : DocUpdate)
      = DocPutRes.updated
          ([docA, docB].set 1
            (mergeDoc ([docA, docB].getD 1 default)
              ⟨none, none, none, none, none, none, none, some true⟩ "b".data))
          (mergeDoc ([docA, docB].getD 1 default)
            ⟨none, none, none, none, none, none, none, some true⟩ "b".data)
    ∧ (mergeDoc ([docA, docB].getD 1 default)
        ⟨none, none, none, none, none, none, none, some true⟩ "b".data).isFavorite = true := by
  have h := putDocument_spec [docA, docB] "b".data
    ⟨none, none, none, none, none, none, none, some true⟩ 1 (by decide)
  exact ⟨h.1, h.2.2.2.2.2.2.2.2.2.2.2 true rfl⟩

/-- C3 counterexample: the folder `Features` with empty purpose and a
description not containing the query is a title-only match for
`features`, yet its search result carries a snippet (the unhighlighted
fallback over the description), not no snippet. -/
theorem titleOnly_counterexample :
    jsIncludes (lc "Features".data) (lc "features".data) = true
    ∧ jsIncludes (lc ([] : List Char)) (lc "features".data) = false
    ∧ jsIncludes (lc "misc stuff".data) (lc "features".data) = false
    ∧ (folderMatch Repo.ui "features".data
        (⟨"Features".data, "Features".data, [], "misc stuff".data, []⟩ : FolderInfo)).map
          (fun r => r.highlightedSnippet.isSome) = some true := by
  decide

theorem jsIncludes_false_firstOcc {hay needle : List Char}
    (h : jsIncludes hay needle = false) : firstOcc hay needle = none := by
  unfold jsIncludes at h
  exact Option.not_isSome_iff_eq_none.mp (by simp [h])

theorem getHighlightedSnippet_notFound {t q : List Char} (m : Nat)
    (h : firstOcc (lc t) (lc q) = none) :
    getHighlightedSnippet t q m
      = [Seg.plain (substring t 0 m ++ (if m < t.length then ell else []))] := by
  simp only [getHighlightedSnippet, h]

theorem commentScan_eq_none (sl : List Char) (cs : List Comment)
    (h : ∀ c ∈ cs, jsIncludes (lc c.message) sl = false
        ∧ jsIncludes (lc c.name) sl = false) :
    commentScan sl cs = none := by
  induction cs with
  | nil => rfl
  | cons c rest ih =>
      have hc := h c (by simp)
      rw [commentScan, if_neg (by simp [hc.1]), if_neg (by simp [hc.2])]
      exact ih (fun a ha => h a (by simp [ha]))

/-- C3 (amended). Title-only matches still produce a result for every
entity type. Documents and discussions carry no snippet — a discussion
result carries the comment-count descriptor — while a folder result
carries no snippet exactly when both purpose and description are empty,
and otherwise carries the unhighlighted first-100-characters fallback
over its description-else-purpose. -/
theorem titleOnly_spec (q : List Char) :
    (∀ (repo : Repo) (folder : FolderInfo),
        jsIncludes (lc folder.name) (lc q) = true →
        jsIncludes (lc folder.purpose) (lc q) = false →
        jsIncludes (lc folder.description) (lc q) = false →
        folderMatch repo q folder
          = some { type := ResultType.folder
                   title := folder.name
                   description := jsOr folder.purpose
                     (match repo with
                      | .ui => "UI Test Automation Folder".data
                      | .api => "API Test Automation Folder".data)
                   highlightedSnippet :=
                     if (jsOr folder.description (jsOr folder.purpose [])).isEmpty then none
                     else some [Seg.plain
                       (substring (jsOr folder.description (jsOr folder.purpose [])) 0 100
                         ++ (if 100 < (jsOr folder.description (jsOr folder.purpose [])).length
                             then ell else []))]
                   repo := some repo })
    ∧ (∀ doc : Document,
        jsIncludes (lc doc.name) (lc q) = true →
        docMatch q doc
          = some { type := ResultType.document
                   title := doc.name
                   description := "Uploaded ".data ++ doc.uploadedAt
                   highlightedSnippet := none
                   repo := none })
    ∧ (∀ post : Post,
        jsIncludes (lc post.name) (lc q) = true →
        jsIncludes (lc post.message) (lc q) = false →
        (∀ c ∈ post.comments, jsIncludes (lc c.message) (lc q) = false
            ∧ jsIncludes (lc c.name) (lc q) = false) →
        discussionMatch q post
          = some { type := ResultType.discussion
                   title := jsOr post.name "Untitled".data
                   description := natChars post.comments.length ++ " comments".data
                   highlightedSnippet := none
                   repo := none }) := by
  refine ⟨?_, ?_, ?_⟩
  · intro repo folder h1 h2 h3
    have hocc : ∀ mt, mt = jsOr folder.description (jsOr folder.purpose []) →
        ¬ mt.isEmpty → firstOcc (lc mt) (lc q) = none := by
      intro mt hmt hne
      by_cases hd : folder.description.isEmpty
      · by_cases hp : folder.purpose.isEmpty
        · exfalso
          apply hne
          simp [hmt, jsOr, hd, hp]
        · have : mt = folder.purpose := by simp [hmt, jsOr, hd, hp]
          rw [this]
          exact jsIncludes_false_firstOcc h2
      · have : mt = folder.description := by simp [hmt, jsOr, hd]
        rw [this]
        exact jsIncludes_false_firstOcc h3
    unfold folderMatch
    simp only [h1, if_true, Bool.or_true, if_pos rfl]
    congr 1
    by_cases hmt : (jsOr folder.description (jsOr folder.purpose [])).isEmpty
    · simp [hmt]
    · simp only [hmt, Bool.false_eq_true, if_false]
      rw [getHighlightedSnippet_notFound 100 (hocc _ rfl hmt)]
  · intro doc h1
    unfold docMatch
    simp [h1]
  · intro post h1 h2 h3
    have hscan : commentScan (lc q) post.comments = none :=
      commentScan_eq_none (lc q) post.comments h3
    unfold discussionMatch
    simp only [h2, Bool.false_eq_true, if_false, hscan]
    simp [h1]

/-- Witness for C3 at a concrete input: a title-only folder match with
empty body fields carries no snippet and the generic descriptor. -/
theorem titleOnly_spec_witness :
    folderMatch Repo.ui "fox".data (⟨"Fox".data, "Fox".data, [], [], []⟩ : FolderInfo)
      = some { type := ResultType.folder
               title := "Fox".data
               description := "UI Test Automation Folder".data
               highlightedSnippet := none
               repo := some Repo.ui } :=
  (titleOnly_spec "fox".data).1 Repo.ui ⟨"Fox".data, "Fox".data, [], [], []⟩
    (by decide) (by decide) (by decide)
